import Mathlib

/-!
Verification of the natural-language specification of the
`ietf-network-schema` repository (a CMDB query layer: SQL sanitizer,
Japanese-prompt entity extraction, FTS match-expression synthesis,
document store, topology graph builder).

The Python sources are shallowly embedded: pure string-processing
functions become Lean functions over `List Char` / `String`; the SQLite
store is modelled as an explicit association list / row list; the raw
SQL execution step is modelled by an oracle parameter so that the
handler's control flow (what it executes and what it returns) is
explicit.  Regex operations of the source are embedded by direct
left-to-right scanning functions that implement the exact pattern used
at each call site (leftmost match, greedy quantifiers, `\b` word
boundaries).  Python's `re` module treats every unicode alphanumeric as
a word character; since the repository's inputs are ASCII plus CJK text,
`isWordChar` counts every code point ≥ 128 as a word character, which
agrees with Python on that input space.
-/

namespace IetfNetworkSchema

/-! ### Basic character classes (Python `re` semantics on the input space) -/

/-- ASCII letter. -/
def isAsciiAlpha (c : Char) : Bool :=
  ('A' ≤ c && c ≤ 'Z') || ('a' ≤ c && c ≤ 'z')

/-- ASCII digit. -/
def isAsciiDigit (c : Char) : Bool :=
  '0' ≤ c && c ≤ '9'

/-- Python `\w` on the ASCII+CJK input space: ASCII alphanumerics,
underscore, and any non-ASCII code point (CJK letters are word
characters in Python's unicode `re`). -/
def isWordChar (c : Char) : Bool :=
  isAsciiAlpha c || isAsciiDigit c || c = '_' || c.val ≥ 128

/-- Whitespace characters recognized by Python's `str.strip` / `\s`
on ASCII input. -/
def isPySpace (c : Char) : Bool :=
  c = ' ' || c = '\t' || c = '\n' || c = '\r' || c = '\x0b' || c = '\x0c'

/-- ASCII lowercasing, as `str.lower` acts on the ASCII range (CJK
characters are unaffected by `lower`, matching Python). -/
def asciiLower (c : Char) : Char :=
  if 'A' ≤ c && c ≤ 'Z' then Char.ofNat (c.toNat + 32) else c

/-- Lowercase a character list. -/
def lowerL (cs : List Char) : List Char := cs.map asciiLower

/-- Python `str.strip()` over a character list. -/
def pyStrip (cs : List Char) : List Char :=
  ((cs.dropWhile isPySpace).reverse.dropWhile isPySpace).reverse

/-! ### The SQL sanitizer (`mcp_cmdb._sanitize_sql`) -/

/-- The forbidden mutating/DDL keywords of `_SQL_FORBIDDEN`
(`re.compile(r"\b(UPDATE|DELETE|INSERT|DROP|ALTER|ATTACH|REINDEX|VACUUM|CREATE|REPLACE|PRAGMA|TRIGGER)\b", re.IGNORECASE)`). -/
def sqlForbiddenKeywords : List (List Char) :=
  ["update".toList, "delete".toList, "insert".toList, "drop".toList,
   "alter".toList, "attach".toList, "reindex".toList, "vacuum".toList,
   "create".toList, "replace".toList, "pragma".toList, "trigger".toList]

/-- Case-insensitive literal match of `kw` at the head of `cs`;
returns the remainder after the keyword on success. -/
def matchKeywordCI : List Char → List Char → Option (List Char)
  | [], rest => some rest
  | _ :: _, [] => none
  | k :: ks, c :: rest => if asciiLower c = k then matchKeywordCI ks rest else none

/-- Does one of the forbidden keywords match at this position, with a
word boundary on both sides?  `prevIsWord` tells whether the character
immediately before this position is a word character. -/
def forbiddenHere (prevIsWord : Bool) (cs : List Char) : Bool :=
  !prevIsWord &&
    sqlForbiddenKeywords.any (fun kw =>
      match matchKeywordCI kw cs with
      | some rest =>
          match rest with
          | [] => true
          | d :: _ => !isWordChar d
      | none => false)

/-- Left-to-right scan for a whole-word, case-insensitive occurrence of
a forbidden keyword (the `_SQL_FORBIDDEN.search` call). -/
def hasForbiddenAux : Bool → List Char → Bool
  | _, [] => false
  | prevW, c :: rest => forbiddenHere prevW (c :: rest) || hasForbiddenAux (isWordChar c) rest

/-- Embeds `_SQL_FORBIDDEN.search(s)` is not `None`. -/
def hasForbidden (cs : List Char) : Bool := hasForbiddenAux false cs

/-- Embeds `re.sub(r";\s*$", "", sql)`: remove one trailing semicolon together
with any whitespace after it; if there is no such suffix the string is
unchanged. -/
def stripTrailingSemi (cs : List Char) : List Char :=
  let r := cs.reverse
  let r2 := r.dropWhile isPySpace
  match r2 with
  | ';' :: r3 => r3.reverse
  | _ => cs

/-- A Python value as far as the sanitizer is concerned: a `str` or
anything else (`isinstance(raw_sql, str)` check). -/
inductive PyVal where
  | str (s : String)
  | other
  deriving DecidableEq, Repr

/-- Embeds `mcp_cmdb._sanitize_sql`: returns `(sql, None)` on acceptance and
`("", error-message)` on rejection.  The argument is `none` when the
caller did not supply the key at all (`args.get("sql")` → `None`). -/
def sanitize_sql (rawSql : Option PyVal) : String × Option String :=
  match rawSql with
  | none => ("", some "sql must be a string")
  | some PyVal.other => ("", some "sql must be a string")
  | some (PyVal.str s) =>
    let sql := pyStrip s.toList
    if sql.isEmpty then ("", some "sql must not be empty")
    else
      let sql := stripTrailingSemi sql
      let lowered := lowerL sql
      if !("select".toList.isPrefixOf lowered || "with ".toList.isPrefixOf lowered) then
        ("", some "only SELECT or WITH statements are allowed")
      else if hasForbidden sql then
        ("", some "detected forbidden keyword in sql")
      else
        (⟨sql⟩, none)

/-- The sanitizer accepts (no error). -/
def sanitizeAccepts (rawSql : Option PyVal) : Bool :=
  (sanitize_sql rawSql).2.isNone

/-- The text the sanitizer actually inspects: the raw string stripped of
surrounding whitespace and of at most one trailing semicolon. -/
def sanitizedText (s : String) : List Char := stripTrailingSemi (pyStrip s.toList)

/-- The sanitized text begins, case-insensitively, with `select` or with
`with ` (the read-only / CTE keywords). -/
def beginsReadOnly (s : String) : Bool :=
  "select".toList.isPrefixOf (lowerL (sanitizedText s))
    || "with ".toList.isPrefixOf (lowerL (sanitizedText s))

/-! ### The raw-query handler (`mcp_cmdb._handle_cmdb_query` / `_execute_select`) -/

/-- Arguments of the `cmdb.query` tool call (`args.get("sql")`,
`args.get("db")`); a missing key is `none`, a non-string value is
`PyVal.other`. -/
structure Args where
  sql : Option PyVal := none
  db : Option PyVal := none
  deriving DecidableEq, Repr

/-- The structured response body built by `_handle_cmdb_query`
(the fields of the JSON body that the claims are about). -/
structure Response (α : Type) where
  ok : Bool
  errorCode : Option String := none
  errorMessage : Option String := none
  rows : List α := []
  columns : List String := []
  count : Nat := 0
  truncated : Bool := false
  notice : Option String := none
  summary : Option String := none
  deriving DecidableEq, Repr

/-- The row-reading loop of `_execute_select`: `for idx, row in
enumerate(cur): if idx < MAX_ROWS: rows.append(...) else: truncated =
True; break`.  Returns the collected rows and the truncated flag. -/
def execSelectLoop {α : Type} (maxRows : Nat) : Nat → List α → List α × Bool
  | _, [] => ([], false)
  | idx, r :: rest =>
    if idx < maxRows then
      let out := execSelectLoop maxRows (idx + 1) rest
      (r :: out.1, out.2)
    else ([], true)

/-- Embeds `_execute_select`, abstracted over the cursor contents: the SQLite
cursor is modelled as the list of all rows the statement would yield. -/
def execute_select {α : Type} (maxRows : Nat) (cursorRows : List α) : List α × Bool :=
  execSelectLoop maxRows 0 cursorRows

/-- The success-path result construction of `_handle_cmdb_query`
(lines building `result`, `truncated`, `notice`, `count`). -/
def buildQueryResult {α : Type} (maxRows : Nat) (cols : List String)
    (cursorRows : List α) : Response α :=
  let out := execute_select maxRows cursorRows
  { ok := true
    rows := out.1
    columns := cols
    count := out.1.length
    truncated := out.2
    notice := if out.2 then
        some ("results truncated to " ++ toString maxRows ++ " row(s)")
      else none
    summary := some ("Returned " ++ toString out.1.length ++ " row(s)") }

/-- Outcome of a handler call: response body, HTTP status, and the list
of SQL statements that were actually submitted to the SQLite store. -/
structure HandlerOut (α : Type) where
  body : Response α
  status : Nat
  executed : List String
  deriving DecidableEq, Repr

/-- The db-path selection of `_handle_cmdb_query`: the `db` argument
when it is a string with non-blank content, else the default, and the
result is stripped. -/
def resolveDbPath (defaultDb : String) (db : Option PyVal) : String :=
  ⟨pyStrip (match db with
    | some (PyVal.str d) => if (pyStrip d.toList).isEmpty then defaultDb else d
    | _ => defaultDb).toList⟩

/-- Embeds `_handle_cmdb_query`.  The database is abstracted as an oracle
mapping `(db-path, sql)` to either an exception message or the
`(columns, rows)` the cursor yields; everything the handler runs against
the store is recorded in `executed`. -/
def handle_cmdb_query {α : Type}
    (oracle : String → String → Except String (List String × List α))
    (maxRows : Nat) (defaultDb : String) (args : Args) : HandlerOut α :=
  match sanitize_sql args.sql with
  | (_, some msg) =>
      { body := { ok := false, errorCode := some "invalid_sql", errorMessage := some msg },
        status := 400, executed := [] }
  | (sql, none) =>
      match oracle (resolveDbPath defaultDb args.db) sql with
      | .error e =>
          { body := { ok := false, errorCode := some "query_failed", errorMessage := some e },
            status := 500, executed := [sql] }
      | .ok (cols, cursorRows) =>
          { body := buildQueryResult maxRows cols cursorRows,
            status := 200, executed := [sql] }

/-! ### Entity extraction (`scripts/jp_query.py`) -/

/-- The identifier character class `[A-Za-z0-9_.\-]` used by
`_extract_node_token` and `extract_ids`. -/
def inIdClass (c : Char) : Bool :=
  isAsciiAlpha c || isAsciiDigit c || c = '_' || c = '.' || c = '-'

/-- Is the head of the list a word character (regex `\b` lookahead)? -/
def headIsWord : List Char → Bool
  | [] => false
  | d :: _ => isWordChar d

/-- Greedy tail of the exact-node regex
`[A-Za-z][A-Za-z0-9_.\-]*\d\b` after the leading letter: the longest
prefix whose characters are all in the identifier class, whose last
character is a digit, and that is followed by a word boundary. -/
def exactTail : List Char → Option (List Char)
  | [] => none
  | c :: rest =>
      if inIdClass c then
        match exactTail rest with
        | some tok => some (c :: tok)
        | none =>
            if isAsciiDigit c && !headIsWord rest then some [c] else none
      else none

/-- Embeds `re.search(r"\b([A-Za-z][A-Za-z0-9_.\-]*\d)\b", prompt)`: leftmost
match of a token starting with a letter and ending in a digit at word
boundaries.  `prev` is the character before the current position. -/
def findExactToken : Option Char → List Char → Option (List Char)
  | _, [] => none
  | prev, c :: rest =>
      if !(prev.any isWordChar) && isAsciiAlpha c then
        match exactTail rest with
        | some tok => some (c :: tok)
        | none => findExactToken (some c) rest
      else findExactToken (some c) rest

/-- Embeds `re.search(r"(L[23]SW)(?!\d)", prompt, re.IGNORECASE)`: leftmost
case-insensitive occurrence of `L2SW`/`L3SW` not followed by a digit;
the matched text keeps its original case. -/
def findL23SW : List Char → Option (List Char)
  | [] => none
  | a :: rest =>
      match rest with
      | b :: s :: w :: rest2 =>
          if asciiLower a = 'l' && (b = '2' || b = '3') && asciiLower s = 's'
              && asciiLower w = 'w' && !headIsDigit rest2 then
            some [a, b, s, w]
          else findL23SW rest
      | _ => none
where
  headIsDigit : List Char → Bool
    | [] => false
    | d :: _ => isAsciiDigit d

/-- Embeds `jp_query._extract_node_token`: `(node_id_exact, node_prefix)`. -/
def extract_node_token (prompt : String) : Option String × Option String :=
  match findExactToken none prompt.toList with
  | some tok => (some ⟨tok⟩, none)
  | none =>
    match findL23SW prompt.toList with
    | some tok => (none, some ⟨tok⟩)
    | none => (none, none)

/-- Case-sensitive literal match at the head of a list; returns the
remainder on success. -/
def matchLit : List Char → List Char → Option (List Char)
  | [], rest => some rest
  | _ :: _, [] => none
  | k :: ks, c :: rest => if c = k then matchLit ks rest else none

/-- After a matched keyword: `\s*([A-Za-z0-9_.\-]+)` — skip whitespace
greedily, then capture a non-empty identifier run. -/
def idAfterGap (cs : List Char) : Option (List Char) :=
  if ((cs.dropWhile isPySpace).takeWhile inIdClass).isEmpty then none
  else some ((cs.dropWhile isPySpace).takeWhile inIdClass)

/-- Try each keyword alternative (in regex alternation order) at the
current position; on a keyword match the capture must also succeed,
otherwise the next alternative is tried (regex backtracking). -/
def tryAltsAt : List (List Char) → Bool → List Char → Option (List Char)
  | [], _, _ => none
  | kw :: alts, ci, cs =>
      match (if ci then matchKeywordCI kw cs else matchLit kw cs) with
      | some rest =>
          match idAfterGap rest with
          | some tok => some tok
          | none => tryAltsAt alts ci cs
      | none => tryAltsAt alts ci cs

/-- Leftmost match of `(?:kw1|kw2|...)\s*([A-Za-z0-9_.\-]+)`; `ci`
selects `re.IGNORECASE` (case-insensitive alternatives must be given in
lowercase). -/
def findKwId (alts : List (List Char)) (ci : Bool) : List Char → Option (List Char)
  | [] => none
  | c :: rest =>
      match tryAltsAt alts ci (c :: rest) with
      | some idTok => some idTok
      | none => findKwId alts ci rest

/-- Leftmost match of `([A-Za-z0-9_.\-]+):([A-Za-z0-9_.\-]+)` — the
`NODE:TP` pattern of `extract_ids`. -/
def findColonPair : List Char → Option (List Char × List Char)
  | [] => none
  | c :: rest =>
      if inIdClass c then
        match (c :: rest).dropWhile inIdClass with
        | [] => findColonPair rest
        | x :: rest2 =>
            if x = ':' then
              (if (rest2.takeWhile inIdClass).isEmpty then findColonPair rest
               else some ((c :: rest).takeWhile inIdClass, rest2.takeWhile inIdClass))
            else findColonPair rest
      else findColonPair rest

/-- The extracted-identifier map produced by `jp_query.extract_ids`
(keys `node_id`, `tp_id`, `link_id`; a missing key is `none`). -/
structure Ids where
  node_id : Option String := none
  tp_id : Option String := none
  link_id : Option String := none
  deriving DecidableEq, Repr

/-- The `node_id` extraction of `extract_ids`: the left part of a
`NODE:TP` pattern, else the capture after a node keyword. -/
def extractNodeId (cs : List Char) : Option (List Char) :=
  match findColonPair cs with
  | some p => some p.1
  | none => findKwId ["ノード".toList, "node".toList] true cs

/-- The `tp_id` extraction of `extract_ids`: the right part of a
`NODE:TP` pattern, else the capture after an interface keyword (this
alternation is case-sensitive in the source). -/
def extractTpId (cs : List Char) : Option (List Char) :=
  match findColonPair cs with
  | some p => some p.2
  | none =>
      findKwId ["ポート".toList, "インターフェース".toList, "インタフェース".toList,
                "IF".toList, "if".toList, "tp".toList] false cs

/-- The `link_id` extraction of `extract_ids`. -/
def extractLinkId (cs : List Char) : Option (List Char) :=
  findKwId ["リンク".toList, "link".toList] true cs

/-- Embeds `jp_query.extract_ids`. -/
def extract_ids (prompt : String) : Ids :=
  { node_id := (extractNodeId prompt.toList).map (fun t => (⟨t⟩ : String))
    tp_id := (extractTpId prompt.toList).map (fun t => (⟨t⟩ : String))
    link_id := (extractLinkId prompt.toList).map (fun t => (⟨t⟩ : String)) }

/-! ### Match-expression synthesis (`jp_query.build_match_terms`) -/

/-- The FTS token class `[A-Za-z0-9_:\-]` of the `re.findall` call. -/
def inFtsClass (c : Char) : Bool :=
  isAsciiAlpha c || isAsciiDigit c || c = '_' || c = ':' || c = '-'

/-- Embeds `re.findall(r"[A-Za-z0-9_:\-]+", prompt)`: the maximal runs of FTS
token characters, in order (`cur` is the reversed run in progress). -/
def ftsTokensAux : List Char → List Char → List (List Char)
  | cur, [] => if cur.isEmpty then [] else [cur.reverse]
  | cur, c :: rest =>
      if inFtsClass c then ftsTokensAux (c :: cur) rest
      else if cur.isEmpty then ftsTokensAux [] rest
      else cur.reverse :: ftsTokensAux [] rest

/-- The ASCII-ish tokens of the prompt, as strings. -/
def ftsTokens (prompt : String) : List String :=
  (ftsTokensAux [] prompt.toList).map (fun t => (⟨t⟩ : String))

/-- The filter columns `COLS = {type, network_id, node_id, tp_id, link_id}`. -/
def COLS : List String := ["type", "network_id", "node_id", "tp_id", "link_id"]

/-- Does the token contain a colon? -/
def hasColon (t : String) : Bool := t.toList.contains ':'

/-- Does the token contain a dash? -/
def hasDash (t : String) : Bool := t.toList.contains '-'

/-- Embeds `t.split(":", 1)[0]`: the part before the first colon. -/
def lhsOf (t : String) : String := ⟨t.toList.takeWhile (fun c => c ≠ ':')⟩

/-- Double-quote a term for FTS. -/
def quoteTerm (t : String) : String := "\"" ++ t ++ "\""

/-- Per-token processing of `build_match_terms`: quote a `key:value`
token whose key is not a filter column; quote a dash-containing token
that has no colon; otherwise keep the token as is. -/
def processedToken (t : String) : String :=
  if hasColon t && !COLS.contains (lhsOf t) then quoteTerm t
  else if hasDash t && !hasColon t then quoteTerm t
  else t

/-- Embeds `FIELD_SYNONYMS` of `jp_query.py`, in source (dict-insertion)
order; only membership of the synonym sets matters (the loop breaks at
the first synonym found in the prompt). -/
def FIELD_SYNONYMS : List (String × List String) :=
  [("mtu", ["mtu", "エムティーユー"]),
   ("duplex", ["duplex", "デュプレックス", "フル", "ハーフ"]),
   ("admin-status", ["admin", "管理", "管理状態"]),
   ("oper-status", ["oper", "運用", "運用状態", "状態"]),
   ("delay-ms", ["遅延", "delay", "レイテンシ"]),
   ("bandwidth", ["帯域", "band幅", "bandwidth"]),
   ("speed-bps", ["速度", "スピード", "bps", "speed"]),
   ("up", ["up", "有効", "リンクアップ", "稼働"]),
   ("down", ["down", "無効", "ダウン", "障害", "断"]),
   ("prefix", ["prefix", "プレフィックス", "経路", "ルート"]),
   ("next-hop", ["next-hop", "ネクストホップ", "次ホップ", "次のホップ"])]

/-- Python's substring test `pat in cs` over character lists. -/
def isInfixL (pat : List Char) : List Char → Bool
  | [] => pat.isEmpty
  | c :: rest => pat.isPrefixOf (c :: rest) || isInfixL pat rest

/-- The canonical field tokens appended for Japanese keywords found in
the lowercased prompt (`for canon, synonyms in FIELD_SYNONYMS.items()`). -/
def synTokens (prompt : String) : List String :=
  let pl := lowerL prompt.toList
  FIELD_SYNONYMS.filterMap (fun p =>
    if p.2.any (fun s => isInfixL (lowerL s.toList) pl) then
      some (if hasDash p.1 then quoteTerm p.1 else p.1)
    else none)

/-- The token list of `build_match_terms` before fallbacks and
deduplication: the quoted `node:tp` phrase (when both ids were
extracted), then the processed ASCII tokens, then the synonym-mapped
canonical tokens. -/
def rawMatchTokens (prompt : String) (ids : Ids) : List String :=
  (match ids.node_id, ids.tp_id with
   | some n, some t => [quoteTerm (n ++ ":" ++ t)]
   | _, _ => []) ++
  (ftsTokens prompt).map processedToken ++
  synTokens prompt

/-- The first fallback of `build_match_terms`: any already-extracted
identifiers, in `node_id`, `tp_id`, `link_id` order. -/
def fallbackIdTokens (ids : Ids) : List String :=
  (match ids.node_id with | some n => [n] | none => []) ++
  (match ids.tp_id with | some t => [t] | none => []) ++
  (match ids.link_id with | some l => [l] | none => [])

/-- The fallbacks of `build_match_terms`: extracted identifiers when no
token survived, then the fixed default term set. -/
def matchTokensWithFallback (prompt : String) (ids : Ids) : List String :=
  if (rawMatchTokens prompt ids).isEmpty then
    (if (fallbackIdTokens ids).isEmpty then ["node", "tp", "link"]
     else fallbackIdTokens ids)
  else rawMatchTokens prompt ids

/-- Embeds `list(dict.fromkeys(tokens))`: drop duplicates, keeping the first
occurrence of each token. -/
def dedupFirstAux : List String → List String → List String
  | _, [] => []
  | seen, t :: ts =>
      if t ∈ seen then dedupFirstAux seen ts
      else t :: dedupFirstAux (t :: seen) ts

/-- The final deduplicated operand list of the match expression. -/
def match_terms_list (prompt : String) (ids : Ids) : List String :=
  dedupFirstAux [] (matchTokensWithFallback prompt ids)

/-- Embeds `jp_query.build_match_terms`: `" OR ".join(tokens)`. -/
def build_match_terms (prompt : String) (ids : Ids) : String :=
  String.intercalate " OR " (match_terms_list prompt ids)

/-! ### Topology graph builder (`scripts/show_links.py`) -/

/-- Python truthiness of an optional string (`if s:`): present and
non-empty. -/
def truthyS : Option String → Bool
  | some s => !s.isEmpty
  | none => false

/-- Python `a or b` on optional strings: keep `a` when it is truthy,
otherwise fall through to `b`. -/
def pyOrS (a b : Option String) : Option String :=
  match a with
  | some s => if s.isEmpty then b else some s
  | none => b

/-- The `link-state` mapping read by `_row_to_edge` (oper-status,
bandwidth, delay-ms).  An absent or empty (hence falsy) mapping is
modelled as `none` at the use sites. -/
structure LinkState where
  oper_status : Option String := none
  bandwidth : Option Int := none
  delay_ms : Option Int := none
  deriving DecidableEq, Repr

/-- The `link` sub-object of a link document, with exactly the fields
`_row_to_edge` reads. -/
structure LinkSection where
  link_id : Option String := none
  source_node : Option String := none
  source_tp : Option String := none
  dest_node : Option String := none
  dest_tp : Option String := none
  op_link_state : Option LinkState := none
  l2_vlan_id : Option Int := none
  deriving DecidableEq, Repr

/-- A parsed link document (`obj` in `load_edges`), with the fields
`_row_to_edge` reads: `obj["link-id"]`, `obj["link_id"]`, `obj["link"]`,
and `obj["operational"]["link-state"]`. -/
structure LinkObj where
  link_id_dash : Option String := none
  link_id_us : Option String := none
  link : Option LinkSection := none
  operational_link_state : Option LinkState := none
  deriving DecidableEq, Repr

/-- The adjacency edge record built by `show_links`. -/
structure Edge where
  link_id : Option String := none
  src_node : Option String := none
  src_tp : Option String := none
  dst_node : Option String := none
  dst_tp : Option String := none
  oper_status : Option String := none
  bandwidth : Option Int := none
  delay_ms : Option Int := none
  vlan_id : Option Int := none
  src_vlan : Option Int := none
  dst_vlan : Option Int := none
  deriving DecidableEq, Repr

/-- Embeds `show_links._row_to_edge`. -/
def row_to_edge (obj : LinkObj) : Edge :=
  let link := obj.link.getD {}
  let op : LinkState := (obj.operational_link_state <|> link.op_link_state).getD {}
  { link_id := pyOrS (pyOrS obj.link_id_dash obj.link_id_us) link.link_id
    src_node := link.source_node
    src_tp := link.source_tp
    dst_node := link.dest_node
    dst_tp := link.dest_tp
    oper_status := op.oper_status
    bandwidth := op.bandwidth
    delay_ms := op.delay_ms
    vlan_id := link.l2_vlan_id
    src_vlan := none
    dst_vlan := none }

/-- Digits-to-number (`int(...)` on a digit run). -/
def digitsToNat (ds : List Char) : Nat :=
  ds.foldl (fun a c => a * 10 + (c.toNat - 48)) 0

/-- Embeds `show_links._fallback_vlan_from_link_id`:
`re.search(r"(?:^|[^0-9])vlan(\d+)$", link_id)` — a trailing digit run
immediately preceded by the literal `vlan`, which is at the start of the
string or preceded by a non-digit. -/
def fallback_vlan_from_link_id (lid : Option String) : Option Int :=
  match lid with
  | none => none
  | some s =>
      let r := s.toList.reverse
      let ds := r.takeWhile isAsciiDigit
      if ds.isEmpty then none
      else
        match r.dropWhile isAsciiDigit with
        | 'n' :: 'a' :: 'l' :: 'v' :: rest2 =>
            match rest2 with
            | [] => some (digitsToNat ds.reverse)
            | c :: _ => if isAsciiDigit c then none else some (digitsToNat ds.reverse)
        | _ => none

/-- The guarded endpoint VLAN lookup of `load_edges` (`if sn and st:
edge["src_vlan"] = _get_tp_vlan(cur, sn, st)`); `tpv` models
`_get_tp_vlan` on the underlying database. -/
def endpointVlan (tpv : String → String → Option Int)
    (n t : Option String) : Option Int :=
  match n, t with
  | some sn, some st => if !sn.isEmpty && !st.isEmpty then tpv sn st else none
  | _, _ => none

/-- The VLAN resolution chain of `load_edges`: an explicit link-level
VLAN wins; else the shared endpoint VLAN; else the `vlan<digits>` suffix
of the link id; else unresolved. -/
def resolveVlanId (tpv : String → String → Option Int) (e : Edge) : Option Int :=
  match e.vlan_id with
  | some v => some v
  | none =>
      if (endpointVlan tpv e.src_node e.src_tp).isSome
          && endpointVlan tpv e.src_node e.src_tp = endpointVlan tpv e.dst_node e.dst_tp then
        endpointVlan tpv e.src_node e.src_tp
      else fallback_vlan_from_link_id e.link_id

/-- The per-edge enrichment and VLAN resolution of `load_edges`. -/
def enrich_resolve (tpv : String → String → Option Int) (e : Edge) : Edge :=
  { e with src_vlan := endpointVlan tpv e.src_node e.src_tp
           dst_vlan := endpointVlan tpv e.dst_node e.dst_tp
           vlan_id := resolveVlanId tpv e }

/-- The body of the `load_edges` loop for one `docs` row: JSON parse
failure (`none`) and rows without both endpoint nodes are skipped. -/
def load_edge_of_doc (tpv : String → String → Option Int)
    (doc : Option LinkObj) : Option Edge :=
  match doc with
  | none => none
  | some obj =>
      let e := row_to_edge obj
      if truthyS e.src_node && truthyS e.dst_node then some (enrich_resolve tpv e)
      else none

/-- Embeds `show_links.load_edges` over the stored link documents (`docs`
rows of `type='link'`, in table order). -/
def load_edges (tpv : String → String → Option Int)
    (docs : List (Option LinkObj)) : List Edge :=
  docs.filterMap (load_edge_of_doc tpv)

/-- Python f-string rendering of a possibly-missing string. -/
def pyShowOptS : Option String → String
  | some s => s
  | none => "None"

/-- Embeds `?`-marked VLAN rendering of `_format_edge._fmt`. -/
def fmtOptVlan : Option Int → String
  | some v => toString v
  | none => "?"

/-- The `tail` metadata list of `show_links._format_edge`. -/
def edgeTail (e : Edge) : List String :=
  (if truthyS e.oper_status then ["oper=" ++ pyShowOptS e.oper_status] else []) ++
  (match e.bandwidth with | some b => ["bw=" ++ toString b] | none => []) ++
  (match e.delay_ms with | some d => ["delay-ms=" ++ toString d] | none => []) ++
  (match e.vlan_id with
   | some v => ["vlan=" ++ toString v]
   | none =>
      if e.src_vlan.isSome || e.dst_vlan.isSome then
        ["vlan=" ++ fmtOptVlan e.src_vlan ++ "|" ++ fmtOptVlan e.dst_vlan]
      else [])

/-- Embeds `show_links._format_edge`. -/
def format_edge (e : Edge) : String :=
  let left := pyShowOptS e.src_node ++ ":" ++ pyShowOptS e.src_tp
  let right := pyShowOptS e.dst_node ++ ":" ++ pyShowOptS e.dst_tp
  let tail := edgeTail e
  let meta := if tail.isEmpty then "" else " (" ++ String.intercalate ", " tail ++ ")"
  let meta := if truthyS e.link_id then " [" ++ pyShowOptS e.link_id ++ "]" ++ meta else meta
  left ++ " <-> " ++ right ++ meta

/-! ### Document store (`db.py`) -/

/-- Embeds `db.upsert`: `INSERT INTO objects(kind,id,data) VALUES(?,?,?) ON
CONFLICT(kind,id) DO UPDATE SET data=excluded.data`.  The `objects`
table (`PRIMARY KEY(kind,id)`) is modelled as its list of rows
`((kind, id), data)`; the upsert replaces the data of every row with the
conflicting key, or appends a new row when the key is absent. -/
def upsert (table : List ((String × String) × String))
    (kind id_ data : String) : List ((String × String) × String) :=
  if table.any (fun r => r.1 = (kind, id_)) then
    table.map (fun r => if r.1 = (kind, id_) then (r.1, data) else r)
  else table ++ [((kind, id_), data)]

/-- Embeds `db.get`: `SELECT kind,id,data FROM objects WHERE kind=? AND id=?`
with `fetchone` — the data of the first row with that identity. -/
def get (table : List ((String × String) × String))
    (kind id_ : String) : Option String :=
  (table.find? (fun r => r.1 = (kind, id_))).map (fun r => r.2)

/-- Number of stored rows for one identity. -/
def countKey (table : List ((String × String) × String))
    (kind id_ : String) : Nat :=
  table.countP (fun r => r.1 = (kind, id_))

/-! ### `db.search` -/

/-- The light sanitization of `db.search`: `q.strip()` followed by
`re.sub(r'^[\s/#>]+', '', q)` — drop the leading run of whitespace and
`/`, `#`, `>` symbols. -/
def searchSanitize (q : String) : List Char :=
  (pyStrip q.toList).dropWhile (fun c => isPySpace c || c = '/' || c = '#' || c = '>')

/-- Embeds `re.search(r"[\s:/()'\"]", q)`: the query needs quoting for MATCH. -/
def searchNeedsQuote (q : List Char) : Bool :=
  q.any (fun c => isPySpace c || c = ':' || c = '/' || c = '(' || c = ')' || c = '\'' || c = '"')

/-- Result of `db.search`, together with whether the full-text MATCH
branch was taken. -/
structure SearchOut where
  items : List (String × String)
  count : Nat
  usedMatch : Bool
  deriving DecidableEq, Repr

/-- Embeds `db.search`.  `store` is the `objects` table's `(kind, id)` rows in
table order; `fts` models the FTS5 join query, mapping a MATCH
expression to its result rows. -/
def search (store : List (String × String))
    (fts : String → List (String × String)) (q : String) (limit : Nat) : SearchOut :=
  let qs := searchSanitize q
  if qs.isEmpty then
    let items := store.take limit
    { items := items, count := items.length, usedMatch := false }
  else
    let matchExpr : String :=
      if searchNeedsQuote qs then "\"" ++ (⟨qs⟩ : String) ++ "\"" else (⟨qs⟩ : String)
    let items := (fts matchExpr).take limit
    { items := items, count := items.length, usedMatch := true }

/-! ### Helper notions used to state the claims, and concrete fixtures -/

/-- A switch-class token: `L2SW` or `L3SW` up to letter case — the only
token shape the node-class regex can produce. -/
def isSwitchClassToken (s : String) : Bool :=
  match s.toList with
  | [a, b, sc, w] =>
      asciiLower a = 'l' && (b = '2' || b = '3') && asciiLower sc = 's' && asciiLower w = 'w'
  | _ => false

/-- Fixture: a link document with endpoints `A:ae1` and `B:ae1` and no
link-level VLAN. -/
def exLinkAB (lid : String) : LinkObj :=
  { link := some { link_id := some lid
                   source_node := some "A", source_tp := some "ae1"
                   dest_node := some "B", dest_tp := some "ae1" } }

/-- Fixture: both endpoint `tp` documents report VLAN 10. -/
def tpvShared : String → String → Option Int := fun _ _ => some 10

/-- Fixture: the `A`-side `tp` document reports VLAN 10, every other
endpoint VLAN 20. -/
def tpvSplit : String → String → Option Int :=
  fun n _ => if n = "A" then some 10 else some 20

/-- Fixture: the edge resolved from `exLinkAB` with agreeing endpoint
VLANs. -/
def exEdgeShared : Edge := enrich_resolve tpvShared (row_to_edge (exLinkAB "link-1"))

/-- Fixture: the edge resolved from `exLinkAB` with disagreeing endpoint
VLANs and no `vlan<digits>` suffix on the link id. -/
def exEdgeSplit : Edge := enrich_resolve tpvSplit (row_to_edge (exLinkAB "link-1"))

/-! ## Theorems -/

/-- Helper: on a string argument, the sanitizer's verdict is exactly the
conjunction of the begins-read-only check and the forbidden-keyword
check on the sanitized text. -/
theorem sanitizeAccepts_str (s : String) :
    sanitizeAccepts (some (PyVal.str s)) =
      (beginsReadOnly s && !hasForbidden (sanitizedText s)) := by
  have hred : sanitize_sql (some (PyVal.str s)) =
      (if (pyStrip s.toList).isEmpty then ("", some "sql must not be empty")
       else if !("select".toList.isPrefixOf (lowerL (stripTrailingSemi (pyStrip s.toList)))
              || "with ".toList.isPrefixOf (lowerL (stripTrailingSemi (pyStrip s.toList)))) then
         ("", some "only SELECT or WITH statements are allowed")
       else if hasForbidden (stripTrailingSemi (pyStrip s.toList)) then
         ("", some "detected forbidden keyword in sql")
       else (⟨stripTrailingSemi (pyStrip s.toList)⟩, none)) := rfl
  unfold sanitizeAccepts beginsReadOnly sanitizedText
  rw [hred]
  cases he : (pyStrip s.toList).isEmpty with
  | true =>
      have he' : pyStrip s.toList = [] := by simpa using he
      rw [he']
      decide
  | false =>
      cases h1 : "select".toList.isPrefixOf (lowerL (stripTrailingSemi (pyStrip s.toList))) <;>
        cases h2 : "with ".toList.isPrefixOf (lowerL (stripTrailingSemi (pyStrip s.toList))) <;>
          cases hf : hasForbidden (stripTrailingSemi (pyStrip s.toList)) <;>
            simp [he, h1, h2, hf]

/-- C1: after stripping surrounding whitespace and at most one trailing
semicolon, the sanitizer accepts exactly the string inputs that begin
(case-insensitively) with `select` or `with ` and contain no
mutating/DDL keyword as a whole word; non-string and empty inputs are
rejected; `DROP TABLE docs` is rejected while `SELECT 1` and
`WITH x AS (SELECT 1) SELECT * FROM x` are accepted. -/
theorem sanitize_sql_accepts_iff :
    (∀ v : Option PyVal,
      sanitizeAccepts v = true ↔
        ∃ s : String, v = some (PyVal.str s) ∧ beginsReadOnly s = true ∧
          hasForbidden (sanitizedText s) = false) ∧
    sanitizeAccepts (some (PyVal.str "DROP TABLE docs")) = false ∧
    sanitizeAccepts (some (PyVal.str "SELECT 1")) = true ∧
    sanitizeAccepts (some (PyVal.str "WITH x AS (SELECT 1) SELECT * FROM x")) = true ∧
    sanitizeAccepts (some (PyVal.str "")) = false ∧
    sanitizeAccepts (some PyVal.other) = false ∧
    sanitizeAccepts none = false := by
  refine ⟨?_, by decide, by decide, by decide, by decide, by decide, by decide⟩
  intro v
  cases v with
  | none => simp [sanitizeAccepts, sanitize_sql]
  | some pv =>
    cases pv with
    | other => simp [sanitizeAccepts, sanitize_sql]
    | str s =>
      rw [sanitizeAccepts_str]
      constructor
      · intro h
        have h' : beginsReadOnly s = true ∧ (!hasForbidden (sanitizedText s)) = true := by
          simpa using h
        exact ⟨s, rfl, h'.1, by simpa using h'.2⟩
      · rintro ⟨s', hs, h1, h2⟩
        cases hs
        simp [h1, h2]

/-- Witness for C1 at a concrete accepted input. -/
theorem sanitize_sql_accepts_iff_witness :
    sanitizeAccepts (some (PyVal.str "SELECT 2")) = true :=
  (sanitize_sql_accepts_iff.1 (some (PyVal.str "SELECT 2"))).mpr
    ⟨"SELECT 2", rfl, by decide, by decide⟩

/-- C2: whenever the sanitizer rejects the input, the raw-query handler
submits nothing to the store and answers `ok = false`, error code
`invalid_sql`, HTTP 400 — for any store oracle; and every statement the
handler ever submits is one the sanitizer accepted. -/
theorem handle_cmdb_query_rejects_without_execution {α : Type}
    (oracle : String → String → Except String (List String × List α))
    (maxRows : Nat) (defaultDb : String) (args : Args) :
    ((sanitize_sql args.sql).2.isSome = true →
      (handle_cmdb_query oracle maxRows defaultDb args).executed = [] ∧
      (handle_cmdb_query oracle maxRows defaultDb args).body.ok = false ∧
      (handle_cmdb_query oracle maxRows defaultDb args).body.errorCode = some "invalid_sql" ∧
      (handle_cmdb_query oracle maxRows defaultDb args).status = 400) ∧
    (∀ s, s ∈ (handle_cmdb_query oracle maxRows defaultDb args).executed →
      sanitize_sql args.sql = (s, none)) := by
  unfold handle_cmdb_query
  cases hsan : sanitize_sql args.sql with
  | mk sql err =>
    cases err with
    | some msg =>
        refine ⟨fun _ => ⟨rfl, rfl, rfl, rfl⟩, ?_⟩
        intro s hmem
        simp at hmem
    | none =>
        constructor
        · intro habs
          simp at habs
        · intro s hmem
          cases ho : oracle (resolveDbPath defaultDb args.db) sql with
          | error e =>
              simp [ho] at hmem
              rw [hmem]
          | ok v =>
              rcases v with ⟨cols, cursorRows⟩
              simp [ho] at hmem
              rw [hmem]

/-- Witness for C2: the rejected input `DROP TABLE docs` yields the 400
error and no execution, for a concrete oracle. -/
theorem handle_cmdb_query_rejects_witness :
    (handle_cmdb_query (fun _ _ => Except.ok ([], ([] : List Nat))) 1000 "rag.db"
        { sql := some (PyVal.str "DROP TABLE docs") }).executed = [] ∧
    (handle_cmdb_query (fun _ _ => Except.ok ([], ([] : List Nat))) 1000 "rag.db"
        { sql := some (PyVal.str "DROP TABLE docs") }).body.ok = false ∧
    (handle_cmdb_query (fun _ _ => Except.ok ([], ([] : List Nat))) 1000 "rag.db"
        { sql := some (PyVal.str "DROP TABLE docs") }).body.errorCode = some "invalid_sql" ∧
    (handle_cmdb_query (fun _ _ => Except.ok ([], ([] : List Nat))) 1000 "rag.db"
        { sql := some (PyVal.str "DROP TABLE docs") }).status = 400 :=
  (handle_cmdb_query_rejects_without_execution _ _ _ _).1 (by decide)

/-- Helper: the rows collected by the reading loop are the remaining
budget's worth of cursor rows. -/
theorem execSelectLoop_fst {α : Type} (maxRows : Nat) :
    ∀ (rows : List α) (idx : Nat),
      (execSelectLoop maxRows idx rows).1 = rows.take (maxRows - idx) := by
  intro rows
  induction rows with
  | nil =>
      intro idx
      simp [execSelectLoop]
  | cons r rest ih =>
      intro idx
      unfold execSelectLoop
      by_cases hlt : idx < maxRows
      · rw [if_pos hlt]
        show r :: (execSelectLoop maxRows (idx + 1) rest).1 = _
        rw [ih (idx + 1)]
        have h1 : maxRows - idx = (maxRows - (idx + 1)) + 1 := by omega
        rw [h1, List.take_succ_cons]
      · rw [if_neg hlt]
        have h0 : maxRows - idx = 0 := by omega
        rw [h0, List.take_zero]

/-- Helper: the loop's truncated flag is set exactly when the cursor
holds more rows than the remaining budget. -/
theorem execSelectLoop_snd {α : Type} (maxRows : Nat) :
    ∀ (rows : List α) (idx : Nat), idx ≤ maxRows →
      (execSelectLoop maxRows idx rows).2 = decide (maxRows - idx < rows.length) := by
  intro rows
  induction rows with
  | nil =>
      intro idx _
      simp [execSelectLoop]
  | cons r rest ih =>
      intro idx h
      unfold execSelectLoop
      by_cases hlt : idx < maxRows
      · rw [if_pos hlt]
        show (execSelectLoop maxRows (idx + 1) rest).2 = _
        rw [ih (idx + 1) hlt]
        rw [decide_eq_decide]
        simp only [List.length_cons]
        omega
      · rw [if_neg hlt]
        have h0 : maxRows - idx = 0 := by omega
        rw [h0]
        show true = _
        exact (decide_eq_true (by simp)).symm

/-- Helper: `_execute_select` returns the first `maxRows` cursor rows
and flags truncation exactly when more rows existed. -/
theorem execute_select_take {α : Type} (maxRows : Nat) (rows : List α) :
    execute_select maxRows rows = (rows.take maxRows, decide (maxRows < rows.length)) := by
  unfold execute_select
  have h1 := execSelectLoop_fst maxRows rows 0
  have h2 := execSelectLoop_snd maxRows rows 0 (Nat.zero_le _)
  rw [Nat.sub_zero] at h1 h2
  exact Prod.ext_iff.mpr ⟨h1, h2⟩

/-- C3: with more cursor rows than the cap, the result is exactly the
first `maxRows` rows with the `truncated` flag and a notice carrying the
cap; with at most `maxRows` rows, every row is returned and neither
`truncated` nor a notice is set. -/
theorem buildQueryResult_truncation {α : Type} (maxRows : Nat)
    (cols : List String) (cursorRows : List α) :
    (buildQueryResult maxRows cols cursorRows).rows = cursorRows.take maxRows ∧
    (buildQueryResult maxRows cols cursorRows).count = (cursorRows.take maxRows).length ∧
    (maxRows < cursorRows.length →
      (buildQueryResult maxRows cols cursorRows).truncated = true ∧
      (buildQueryResult maxRows cols cursorRows).notice =
        some ("results truncated to " ++ toString maxRows ++ " row(s)")) ∧
    (cursorRows.length ≤ maxRows →
      (buildQueryResult maxRows cols cursorRows).rows = cursorRows ∧
      (buildQueryResult maxRows cols cursorRows).truncated = false ∧
      (buildQueryResult maxRows cols cursorRows).notice = none) := by
  unfold buildQueryResult
  rw [execute_select_take]
  by_cases h : maxRows < cursorRows.length
  · refine ⟨rfl, rfl, fun _ => ⟨by simp [h], by simp [h]⟩, fun hle => absurd h (by omega)⟩
  · have hle : cursorRows.length ≤ maxRows := by omega
    refine ⟨rfl, rfl, fun hlt => absurd hlt h, fun _ => ?_⟩
    refine ⟨List.take_of_length_le hle, by simp [h], by simp [h]⟩

/-- Witness for C3 at concrete row lists on both sides of the cap. -/
theorem buildQueryResult_truncation_witness :
    ((buildQueryResult 2 [] [0, 1, 2]).truncated = true ∧
      (buildQueryResult 2 [] [0, 1, 2]).notice = some "results truncated to 2 row(s)") ∧
    ((buildQueryResult 2 ([] : List String) ([0, 1] : List Nat)).rows = [0, 1] ∧
      (buildQueryResult 2 ([] : List String) ([0, 1] : List Nat)).truncated = false) := by
  refine ⟨⟨((buildQueryResult_truncation 2 [] [0, 1, 2]).2.2.1 (by decide)).1, ?_⟩,
    ((buildQueryResult_truncation 2 [] [0, 1]).2.2.2 (by decide)).1,
    ((buildQueryResult_truncation 2 [] [0, 1]).2.2.2 (by decide)).2.1⟩
  have h := ((buildQueryResult_truncation 2 ([] : List String) [0, 1, 2]).2.2.1 (by decide)).2
  simpa using h

/-- Helper: building a string from a character list and listing its
characters are inverse. -/
theorem toList_mk (l : List Char) : (⟨l⟩ : String).toList = l := rfl

/-- Helper: the default of `getLastD` is irrelevant on non-empty lists. -/
theorem getLastD_irrel (l : List Char) (a b : Char) (h : l ≠ []) :
    l.getLastD a = l.getLastD b := by
  cases l with
  | nil => exact absurd rfl h
  | cons x xs => rw [List.getLastD_cons, List.getLastD_cons]

/-- Helper: an ASCII letter is an identifier-class character. -/
theorem inIdClass_of_alpha {c : Char} (h : isAsciiAlpha c = true) :
    inIdClass c = true := by
  simp [inIdClass, h]

/-- Helper: a match of the exact-node tail is a non-empty identifier-class
run ending in a digit. -/
theorem exactTail_shape : ∀ (cs tok : List Char), exactTail cs = some tok →
    tok ≠ [] ∧ tok.all inIdClass = true ∧ isAsciiDigit (tok.getLastD ' ') = true := by
  intro cs
  induction cs with
  | nil =>
      intro tok h
      simp [exactTail] at h
  | cons c rest ih =>
      intro tok h
      unfold exactTail at h
      by_cases hc : inIdClass c = true
      · rw [if_pos hc] at h
        cases ht : exactTail rest with
        | some t' =>
            rw [ht] at h
            injection h with h'
            subst h'
            obtain ⟨h1, h2, h3⟩ := ih t' ht
            refine ⟨by simp, by simp [hc, h2], ?_⟩
            rw [List.getLastD_cons, getLastD_irrel t' c ' ' h1]
            exact h3
        | none =>
            rw [ht] at h
            by_cases hd : (isAsciiDigit c && !headIsWord rest) = true
            · rw [if_pos hd] at h
              injection h with h'
              subst h'
              simp only [Bool.and_eq_true] at hd
              refine ⟨by simp, by simp [hc], ?_⟩
              rw [List.getLastD_cons]
              exact hd.1
            · rw [if_neg hd] at h
              simp at h
      · rw [if_neg hc] at h
        simp at h

/-- Helper: any token found by the exact-node scan starts with a letter,
ends in a digit, and consists of identifier-class characters. -/
theorem findExactToken_shape : ∀ (cs : List Char) (prev : Option Char) (tok : List Char),
    findExactToken prev cs = some tok →
    tok ≠ [] ∧ isAsciiAlpha (tok.headD ' ') = true ∧
    isAsciiDigit (tok.getLastD ' ') = true ∧ tok.all inIdClass = true := by
  intro cs
  induction cs with
  | nil =>
      intro prev tok h
      simp [findExactToken] at h
  | cons c rest ih =>
      intro prev tok h
      unfold findExactToken at h
      by_cases hb : (!(prev.any isWordChar) && isAsciiAlpha c) = true
      · rw [if_pos hb] at h
        simp only [Bool.and_eq_true] at hb
        cases ht : exactTail rest with
        | some t' =>
            rw [ht] at h
            injection h with h'
            subst h'
            obtain ⟨h1, h2, h3⟩ := exactTail_shape rest t' ht
            refine ⟨by simp, by simpa using hb.2, ?_, ?_⟩
            · rw [List.getLastD_cons, getLastD_irrel t' c ' ' h1]
              exact h3
            · simp [inIdClass_of_alpha hb.2, h2]
        | none =>
            rw [ht] at h
            exact ih (some c) tok h
      · rw [if_neg hb] at h
        exact ih (some c) tok h

/-- Helper: any token found by the node-class scan is `L2SW`/`L3SW` up
to letter case. -/
theorem findL23SW_shape : ∀ (cs tok : List Char), findL23SW cs = some tok →
    isSwitchClassToken (⟨tok⟩ : String) = true := by
  intro cs
  induction cs with
  | nil =>
      intro tok h
      simp [findL23SW] at h
  | cons a rest ih =>
      intro tok h
      cases rest with
      | nil => simp [findL23SW] at h
      | cons b rest1 =>
        cases rest1 with
        | nil => simp [findL23SW] at h
        | cons sc rest2 =>
          cases rest2 with
          | nil => simp [findL23SW] at h
          | cons w rest3 =>
            have hred : findL23SW (a :: b :: sc :: w :: rest3) =
                (if (asciiLower a = 'l' && (b = '2' || b = '3') && asciiLower sc = 's'
                    && asciiLower w = 'w' && !findL23SW.headIsDigit rest3) then
                  some [a, b, sc, w]
                else findL23SW (b :: sc :: w :: rest3)) := rfl
            rw [hred] at h
            by_cases hc : (asciiLower a = 'l' && (b = '2' || b = '3') && asciiLower sc = 's'
                && asciiLower w = 'w' && !findL23SW.headIsDigit rest3) = true
            · rw [if_pos hc] at h
              injection h with h'
              subst h'
              simp only [Bool.and_eq_true] at hc
              simp [isSwitchClassToken, toList_mk, hc.1.1.1.1, hc.1.1.1.2, hc.1.1.2, hc.1.2]
            · rw [if_neg hc] at h
              exact ih tok h

/-- C4 counterexample: `ABC` is an all-letter token at the start of the
prompt `ABC list`, followed by a space (so not followed by a digit), yet
entity extraction produces neither an exact node id nor a node prefix —
refuting the claim that any letter-class token not followed by a digit
becomes a `node_prefix`. -/
theorem extract_node_token_no_generic_prefix :
    extract_node_token "ABC list" = (none, none) ∧
    "ABC ".toList.isPrefixOf "ABC list".toList = true ∧
    "ABC".toList.all isAsciiAlpha = true := by decide

/-- C4 amended: entity extraction returns as exact `node_id` a token
that starts with a letter, ends in a digit and consists of identifier
characters; when an exact node id is found, no prefix is produced; a
`node_prefix` is only ever a switch-class token (`L2SW`/`L3SW` up to
case, not followed by a digit) — not an arbitrary letter-class token;
`L3SW1 の MTU` yields `node_id = L3SW1` and `L3SW の一覧` yields
`node_prefix = L3SW`. -/
theorem extract_node_token_spec :
    (∀ (p : String) (t : String), (extract_node_token p).1 = some t →
        (extract_node_token p).2 = none ∧
        t.toList ≠ [] ∧
        isAsciiAlpha (t.toList.headD ' ') = true ∧
        isAsciiDigit (t.toList.getLastD ' ') = true ∧
        t.toList.all inIdClass = true) ∧
    (∀ (p : String) (s : String), (extract_node_token p).2 = some s →
        isSwitchClassToken s = true) ∧
    extract_node_token "L3SW1 の MTU" = (some "L3SW1", none) ∧
    extract_node_token "L3SW の一覧" = (none, some "L3SW") := by
  refine ⟨?_, ?_, by decide, by decide⟩
  · intro p t h
    have hET : extract_node_token p = (match findExactToken none p.data with
        | some tok => (some (⟨tok⟩ : String), (none : Option String))
        | none => match findL23SW p.data with
          | some tok => ((none : Option String), some (⟨tok⟩ : String))
          | none => (none, none)) := rfl
    rw [hET] at h ⊢
    cases hf : findExactToken none p.data with
    | some tok =>
        rw [hf] at h
        simp at h
        obtain ⟨h1, h2, h3, h4⟩ := findExactToken_shape p.data none tok hf
        subst h
        exact ⟨rfl, by simpa [toList_mk] using h1, by simpa [toList_mk] using h2,
          by simpa [toList_mk] using h3, by simpa [toList_mk] using h4⟩
    | none =>
        rw [hf] at h
        cases hl : findL23SW p.data with
        | some tok => rw [hl] at h; simp at h
        | none => rw [hl] at h; simp at h
  · intro p s h
    have hET : extract_node_token p = (match findExactToken none p.data with
        | some tok => (some (⟨tok⟩ : String), (none : Option String))
        | none => match findL23SW p.data with
          | some tok => ((none : Option String), some (⟨tok⟩ : String))
          | none => (none, none)) := rfl
    rw [hET] at h
    cases hf : findExactToken none p.data with
    | some tok => rw [hf] at h; simp at h
    | none =>
        rw [hf] at h
        cases hl : findL23SW p.data with
        | some tok =>
            rw [hl] at h
            simp at h
            subst h
            exact findL23SW_shape p.data tok hl
        | none => rw [hl] at h; simp at h

/-- Witness for the amended C4 at the claim's own examples. -/
theorem extract_node_token_spec_witness :
    (extract_node_token "L3SW1 の MTU").2 = none ∧ isSwitchClassToken "L3SW" = true :=
  ⟨(extract_node_token_spec.1 "L3SW1 の MTU" "L3SW1" (by decide)).1,
   extract_node_token_spec.2.1 "L3SW の一覧" "L3SW" (by decide)⟩

/-- C5: a resolved edge takes the link-level L2 vlan-id when declared;
otherwise the shared non-null endpoint VLAN; otherwise the number of a
`vlan<digits>` suffix of the link id; otherwise the VLAN stays
unresolved and the formatted edge reports both endpoint VLANs with a `?`
for a missing side.  Endpoints sharing VLAN 10 resolve to `vlan=10`;
endpoints on 10 and 20 with no link-level VLAN stay unresolved with
`src_vlan=10`, `dst_vlan=20` both reported. -/
theorem vlan_resolution_policy (tpv : String → String → Option Int) (obj : LinkObj) :
    (∀ v : Int, (obj.link.getD {}).l2_vlan_id = some v →
        (enrich_resolve tpv (row_to_edge obj)).vlan_id = some v) ∧
    ((obj.link.getD {}).l2_vlan_id = none →
      ∀ x : Int, (enrich_resolve tpv (row_to_edge obj)).src_vlan = some x →
        (enrich_resolve tpv (row_to_edge obj)).dst_vlan = some x →
        (enrich_resolve tpv (row_to_edge obj)).vlan_id = some x) ∧
    ((obj.link.getD {}).l2_vlan_id = none →
      ((enrich_resolve tpv (row_to_edge obj)).src_vlan = none ∨
        (enrich_resolve tpv (row_to_edge obj)).src_vlan ≠
          (enrich_resolve tpv (row_to_edge obj)).dst_vlan) →
      (enrich_resolve tpv (row_to_edge obj)).vlan_id =
        fallback_vlan_from_link_id (row_to_edge obj).link_id) ∧
    (∀ e : Edge, e.vlan_id = none → (e.src_vlan.isSome || e.dst_vlan.isSome) = true →
      ("vlan=" ++ fmtOptVlan e.src_vlan ++ "|" ++ fmtOptVlan e.dst_vlan) ∈ edgeTail e) ∧
    exEdgeShared.vlan_id = some 10 ∧
    (exEdgeSplit.vlan_id = none ∧ exEdgeSplit.src_vlan = some 10 ∧
      exEdgeSplit.dst_vlan = some 20 ∧
      format_edge exEdgeSplit = "A:ae1 <-> B:ae1 [link-1] (vlan=10|20)") := by
  have hv : (row_to_edge obj).vlan_id = (obj.link.getD {}).l2_vlan_id := rfl
  have hsv : (enrich_resolve tpv (row_to_edge obj)).src_vlan =
      endpointVlan tpv (row_to_edge obj).src_node (row_to_edge obj).src_tp := rfl
  have hdv : (enrich_resolve tpv (row_to_edge obj)).dst_vlan =
      endpointVlan tpv (row_to_edge obj).dst_node (row_to_edge obj).dst_tp := rfl
  have hres : (enrich_resolve tpv (row_to_edge obj)).vlan_id =
      resolveVlanId tpv (row_to_edge obj) := rfl
  refine ⟨?_, ?_, ?_, ?_, by decide, by decide⟩
  · intro v hl2
    rw [hres]
    unfold resolveVlanId
    rw [hv, hl2]
  · intro hl2 x hx hy
    rw [hsv] at hx
    rw [hdv] at hy
    rw [hres]
    unfold resolveVlanId
    rw [hv, hl2, hx, hy]
    simp
  · intro hl2 hne
    rw [hsv] at hne
    rw [hdv] at hne
    rw [hres]
    unfold resolveVlanId
    rw [hv, hl2]
    rcases hne with hn | hn
    · rw [hn]
      simp
    · have hcond : ¬((endpointVlan tpv (row_to_edge obj).src_node (row_to_edge obj).src_tp).isSome
          && endpointVlan tpv (row_to_edge obj).src_node (row_to_edge obj).src_tp =
            endpointVlan tpv (row_to_edge obj).dst_node (row_to_edge obj).dst_tp) = true := by
        simp [hn]
      rw [if_neg hcond]
  · intro e hvl hsome
    unfold edgeTail
    rw [hvl, if_pos hsome]
    simp

/-- Witness for C5 applied at the two fixture edges. -/
theorem vlan_resolution_policy_witness :
    (enrich_resolve tpvShared (row_to_edge (exLinkAB "link-1"))).vlan_id = some 10 ∧
    ("vlan=" ++ fmtOptVlan exEdgeSplit.src_vlan ++ "|" ++ fmtOptVlan exEdgeSplit.dst_vlan)
      ∈ edgeTail exEdgeSplit :=
  ⟨(vlan_resolution_policy tpvShared (exLinkAB "link-1")).2.1 (by decide) 10
      (by decide) (by decide),
   (vlan_resolution_policy tpvShared (exLinkAB "link-1")).2.2.2.1 exEdgeSplit
      (by decide) (by decide)⟩

/-- Helper: membership in the first-occurrence deduplication. -/
theorem mem_dedupFirstAux (x : String) :
    ∀ (l seen : List String), x ∈ dedupFirstAux seen l ↔ (x ∈ l ∧ x ∉ seen) := by
  intro l
  induction l with
  | nil =>
      intro seen
      simp [dedupFirstAux]
  | cons t ts ih =>
      intro seen
      unfold dedupFirstAux
      by_cases ht : t ∈ seen
      · rw [if_pos ht, ih seen]
        simp only [List.mem_cons]
        constructor
        · rintro ⟨hx, hns⟩
          exact ⟨Or.inr hx, hns⟩
        · rintro ⟨hx | hx, hns⟩
          · subst hx
            exact absurd ht hns
          · exact ⟨hx, hns⟩
      · rw [if_neg ht]
        simp only [List.mem_cons, ih (t :: seen)]
        constructor
        · rintro (rfl | ⟨hx, hns⟩)
          · exact ⟨Or.inl rfl, ht⟩
          · push_neg at hns
            exact ⟨Or.inr hx, hns.2⟩
        · rintro ⟨rfl | hx, hns⟩
          · exact Or.inl rfl
          · by_cases hxt : x = t
            · exact Or.inl hxt
            · refine Or.inr ⟨hx, ?_⟩
              push_neg
              exact ⟨hxt, hns⟩

/-- Helper: the deduplicated term list has no duplicates. -/
theorem nodup_dedupFirstAux : ∀ (l seen : List String), (dedupFirstAux seen l).Nodup := by
  intro l
  induction l with
  | nil =>
      intro seen
      exact List.nodup_nil
  | cons t ts ih =>
      intro seen
      unfold dedupFirstAux
      by_cases ht : t ∈ seen
      · rw [if_pos ht]
        exact ih seen
      · rw [if_neg ht]
        refine List.nodup_cons.mpr ⟨?_, ih (t :: seen)⟩
        intro hc
        exact ((mem_dedupFirstAux t ts (t :: seen)).mp hc).2 (List.mem_cons_self _ _)

/-- Helper: deduplication preserves first-occurrence order (the result
is a sublist of the input). -/
theorem dedupFirstAux_sublist : ∀ (l seen : List String), (dedupFirstAux seen l).Sublist l := by
  intro l
  induction l with
  | nil =>
      intro seen
      exact List.nil_sublist []
  | cons t ts ih =>
      intro seen
      unfold dedupFirstAux
      by_cases ht : t ∈ seen
      · rw [if_pos ht]
        exact List.Sublist.cons _ (ih seen)
      · rw [if_neg ht]
        exact List.Sublist.cons₂ _ (ih (t :: seen))

/-- Helper: deduplication keeps an unseen head in first position. -/
theorem dedupFirstAux_head (seen : List String) (t : String) (ts : List String)
    (h : t ∉ seen) :
    dedupFirstAux seen (t :: ts) = t :: dedupFirstAux (t :: seen) ts := by
  have hstep : dedupFirstAux seen (t :: ts) =
      (if t ∈ seen then dedupFirstAux seen ts else t :: dedupFirstAux (t :: seen) ts) := rfl
  rw [hstep, if_neg h]

/-- Helper: when the main token pass is non-empty, no fallback fires. -/
theorem matchTokensWithFallback_of_ne (prompt : String) (ids : Ids)
    (h : rawMatchTokens prompt ids ≠ []) :
    matchTokensWithFallback prompt ids = rawMatchTokens prompt ids := by
  cases hr : rawMatchTokens prompt ids with
  | nil => exact absurd hr h
  | cons a as =>
      unfold matchTokensWithFallback
      rw [hr]
      rfl

/-- Helper: every processed prompt token reaches the final term list. -/
theorem processedToken_mem_terms (prompt : String) (ids : Ids) :
    ∀ t, t ∈ ftsTokens prompt → processedToken t ∈ match_terms_list prompt ids := by
  intro t ht
  have h1 : processedToken t ∈ rawMatchTokens prompt ids := by
    unfold rawMatchTokens
    refine List.mem_append_left _ (List.mem_append_right _ ?_)
    exact List.mem_map_of_mem processedToken ht
  have hne : rawMatchTokens prompt ids ≠ [] := List.ne_nil_of_mem h1
  unfold match_terms_list
  rw [matchTokensWithFallback_of_ne prompt ids hne]
  exact (mem_dedupFirstAux _ _ []).mpr ⟨h1, by simp⟩

/-- C6 counterexample: the tokenized term `node_id:a-b` contains `-`,
but the synthesized expression leaves it unquoted because its left-hand
side before `:` is the filter column `node_id` — refuting the claim
that every term containing `-` appears double-quoted. -/
theorem build_match_terms_dash_unquoted :
    build_match_terms "node_id:a-b" {} = "node_id:a-b" ∧
    ftsTokens "node_id:a-b" = ["node_id:a-b"] ∧
    hasDash "node_id:a-b" = true ∧
    quoteTerm "node_id:a-b" ∉ match_terms_list "node_id:a-b" {} := by decide

/-- C6 amended: the match expression joins the deduplicated terms with
` OR ` preserving first-occurrence order; every tokenized term with a
`:` whose left-hand side is not a filter column appears double-quoted;
every tokenized term containing `-` and not containing `:` appears
double-quoted (a term whose `:`-left-hand side is a filter column stays
unquoted even when it contains `-`); and when both a node id and a tp id
were extracted, the quoted phrase `"<node_id>:<tp_id>"` comes first. -/
theorem build_match_terms_spec (prompt : String) (ids : Ids) :
    build_match_terms prompt ids = String.intercalate " OR " (match_terms_list prompt ids) ∧
    (match_terms_list prompt ids).Nodup ∧
    (match_terms_list prompt ids).Sublist (matchTokensWithFallback prompt ids) ∧
    (∀ t, t ∈ ftsTokens prompt → hasColon t = true → COLS.contains (lhsOf t) = false →
        quoteTerm t ∈ match_terms_list prompt ids) ∧
    (∀ t, t ∈ ftsTokens prompt → hasDash t = true → hasColon t = false →
        quoteTerm t ∈ match_terms_list prompt ids) ∧
    (∀ n tp, ids.node_id = some n → ids.tp_id = some tp →
        (match_terms_list prompt ids).head? = some (quoteTerm (n ++ ":" ++ tp))) := by
  refine ⟨rfl, nodup_dedupFirstAux _ [], dedupFirstAux_sublist _ [], ?_, ?_, ?_⟩
  · intro t ht hc hcols
    have hp : processedToken t = quoteTerm t := by
      unfold processedToken
      rw [if_pos]
      rw [hc, hcols]
      rfl
    rw [← hp]
    exact processedToken_mem_terms prompt ids t ht
  · intro t ht hd hnc
    have hp : processedToken t = quoteTerm t := by
      unfold processedToken
      rw [if_neg, if_pos]
      · rw [hd, hnc]
        rfl
      · rw [hnc]
        simp
    rw [← hp]
    exact processedToken_mem_terms prompt ids t ht
  · intro n tp hn htp
    have hraw : rawMatchTokens prompt ids =
        quoteTerm (n ++ ":" ++ tp) ::
          ((ftsTokens prompt).map processedToken ++ synTokens prompt) := by
      unfold rawMatchTokens
      rw [hn, htp]
      rfl
    have hne : rawMatchTokens prompt ids ≠ [] := by
      rw [hraw]
      simp
    unfold match_terms_list
    rw [matchTokensWithFallback_of_ne prompt ids hne, hraw,
      dedupFirstAux_head _ _ _ (by simp)]
    rfl

/-- Witness for the amended C6 at a concrete prompt with a `node:tp`
pair. -/
theorem build_match_terms_spec_witness :
    quoteTerm "L3SW1:ae1" ∈
      match_terms_list "L3SW1:ae1 の状態は？" (extract_ids "L3SW1:ae1 の状態は？") ∧
    (match_terms_list "L3SW1:ae1 の状態は？" (extract_ids "L3SW1:ae1 の状態は？")).head? =
      some (quoteTerm ("L3SW1" ++ ":" ++ "ae1")) :=
  ⟨(build_match_terms_spec "L3SW1:ae1 の状態は？" (extract_ids "L3SW1:ae1 の状態は？")).2.2.2.1
      "L3SW1:ae1" (by decide) (by decide) (by decide),
   (build_match_terms_spec "L3SW1:ae1 の状態は？" (extract_ids "L3SW1:ae1 の状態は？")).2.2.2.2.2
      "L3SW1" "ae1" (by decide) (by decide)⟩

/-- Helper: a string built from a non-empty character list is not the
empty string. -/
theorem mk_ne_empty {t : List Char} (h : t ≠ []) : (⟨t⟩ : String) ≠ "" := by
  intro hc
  exact h (congrArg String.data hc)

/-- Helper: a quoted term is never the empty string. -/
theorem quoteTerm_ne_empty (t : String) : quoteTerm t ≠ "" := by
  intro hc
  have hlen := congrArg String.length hc
  unfold quoteTerm at hlen
  rw [String.length_append, String.length_append] at hlen
  have h1 : ("\"" : String).length = 1 := rfl
  have h0 : ("" : String).length = 0 := rfl
  rw [h1, h0] at hlen
  omega

/-- Helper: every raw token emitted by the tokenizer is non-empty. -/
theorem ftsTokensAux_ne_nil : ∀ (l cur t : List Char),
    t ∈ ftsTokensAux cur l → t ≠ [] := by
  intro l
  induction l with
  | nil =>
      intro cur t ht
      have hstep : ftsTokensAux cur [] =
          (if cur.isEmpty then [] else [cur.reverse]) := rfl
      rw [hstep] at ht
      by_cases hc : cur.isEmpty = true
      · rw [if_pos hc] at ht
        simp at ht
      · rw [if_neg hc] at ht
        simp only [List.mem_singleton] at ht
        subst ht
        have hcur : cur ≠ [] := by simpa using hc
        simpa using hcur
  | cons c rest ih =>
      intro cur t ht
      have hstep : ftsTokensAux cur (c :: rest) =
          (if inFtsClass c then ftsTokensAux (c :: cur) rest
           else if cur.isEmpty then ftsTokensAux [] rest
           else cur.reverse :: ftsTokensAux [] rest) := rfl
      rw [hstep] at ht
      by_cases hin : inFtsClass c = true
      · rw [if_pos hin] at ht
        exact ih (c :: cur) t ht
      · rw [if_neg hin] at ht
        by_cases hcur : cur.isEmpty = true
        · rw [if_pos hcur] at ht
          exact ih [] t ht
        · rw [if_neg hcur] at ht
          rcases List.mem_cons.mp ht with rfl | ht'
          · have hne : cur ≠ [] := by simpa using hcur
            simpa using hne
          · exact ih [] t ht'

/-- Helper: every tokenized prompt term is non-empty. -/
theorem ftsTokens_ne_empty (prompt : String) : ∀ t ∈ ftsTokens prompt, t ≠ "" := by
  intro t ht
  unfold ftsTokens at ht
  rcases List.mem_map.mp ht with ⟨tok, htok, rfl⟩
  exact mk_ne_empty (ftsTokensAux_ne_nil prompt.toList [] tok htok)

/-- Helper: token processing preserves non-emptiness. -/
theorem processedToken_ne_empty (t : String) (h : t ≠ "") : processedToken t ≠ "" := by
  unfold processedToken
  by_cases h1 : (hasColon t && !COLS.contains (lhsOf t)) = true
  · rw [if_pos h1]
    exact quoteTerm_ne_empty t
  · rw [if_neg h1]
    by_cases h2 : (hasDash t && !hasColon t) = true
    · rw [if_pos h2]
      exact quoteTerm_ne_empty t
    · rw [if_neg h2]
      exact h

/-- Helper: every synonym-mapped canonical token is non-empty. -/
theorem synTokens_ne_empty (prompt : String) : ∀ t ∈ synTokens prompt, t ≠ "" := by
  intro t ht
  unfold synTokens at ht
  rcases List.mem_filterMap.mp ht with ⟨p, hp, hf⟩
  by_cases hm : (p.2.any fun s => isInfixL (lowerL s.toList) (lowerL prompt.toList)) = true
  · rw [if_pos hm] at hf
    injection hf with hf
    subst hf
    by_cases hd : hasDash p.1 = true
    · rw [if_pos hd]
      exact quoteTerm_ne_empty p.1
    · rw [if_neg hd]
      have hall : ∀ q ∈ FIELD_SYNONYMS, q.1 ≠ "" := by decide
      exact hall p hp
  · rw [if_neg hm] at hf
    exact absurd hf (by simp)

/-- Helper: every token of the main pass is non-empty. -/
theorem rawMatchTokens_ne_empty (prompt : String) (ids : Ids) :
    ∀ t ∈ rawMatchTokens prompt ids, t ≠ "" := by
  obtain ⟨nid, tid, lid⟩ := ids
  intro t ht
  unfold rawMatchTokens at ht
  rcases List.mem_append.mp ht with h1 | hsyn
  · rcases List.mem_append.mp h1 with hph | hmap
    · cases nid with
      | none => simp at hph
      | some n =>
          cases tid with
          | none => simp at hph
          | some tp =>
              simp only [List.mem_singleton] at hph
              subst hph
              exact quoteTerm_ne_empty _
    · rcases List.mem_map.mp hmap with ⟨u, hu, rfl⟩
      exact processedToken_ne_empty u (ftsTokens_ne_empty prompt u hu)
  · exact synTokens_ne_empty prompt t hsyn

/-- Helper: every fallback identifier token is a non-empty extracted
value. -/
theorem fallbackIdTokens_ne_empty (ids : Ids)
    (hids : ∀ s, (ids.node_id = some s ∨ ids.tp_id = some s ∨ ids.link_id = some s) → s ≠ "") :
    ∀ t ∈ fallbackIdTokens ids, t ≠ "" := by
  obtain ⟨nid, tid, lid⟩ := ids
  intro t ht
  unfold fallbackIdTokens at ht
  rcases List.mem_append.mp ht with h1 | h3
  · rcases List.mem_append.mp h1 with hn | htp
    · cases nid with
      | none => simp at hn
      | some n =>
          simp only [List.mem_singleton] at hn
          subst hn
          exact hids t (Or.inl rfl)
    · cases tid with
      | none => simp at htp
      | some tp =>
          simp only [List.mem_singleton] at htp
          subst htp
          exact hids t (Or.inr (Or.inl rfl))
  · cases lid with
    | none => simp at h3
    | some l =>
        simp only [List.mem_singleton] at h3
        subst h3
        exact hids t (Or.inr (Or.inr rfl))

/-- Helper: the token list after fallbacks is never empty. -/
theorem matchTokensWithFallback_ne_nil (prompt : String) (ids : Ids) :
    matchTokensWithFallback prompt ids ≠ [] := by
  unfold matchTokensWithFallback
  by_cases hr : (rawMatchTokens prompt ids).isEmpty = true
  · rw [if_pos hr]
    by_cases hf : (fallbackIdTokens ids).isEmpty = true
    · rw [if_pos hf]
      simp
    · rw [if_neg hf]
      simpa using hf
  · rw [if_neg hr]
    simpa using hr

/-- Helper: every token surviving the fallbacks is non-empty. -/
theorem matchTokensWithFallback_ne_empty (prompt : String) (ids : Ids)
    (hids : ∀ s, (ids.node_id = some s ∨ ids.tp_id = some s ∨ ids.link_id = some s) → s ≠ "") :
    ∀ t ∈ matchTokensWithFallback prompt ids, t ≠ "" := by
  intro t ht
  unfold matchTokensWithFallback at ht
  by_cases hr : (rawMatchTokens prompt ids).isEmpty = true
  · rw [if_pos hr] at ht
    by_cases hf : (fallbackIdTokens ids).isEmpty = true
    · rw [if_pos hf] at ht
      simp at ht
      rcases ht with rfl | rfl | rfl <;> decide
    · rw [if_neg hf] at ht
      exact fallbackIdTokens_ne_empty ids hids t ht
  · rw [if_neg hr] at ht
    exact rawMatchTokens_ne_empty prompt ids t ht

/-- Helper: deduplication keeps a non-empty list non-empty. -/
theorem dedupFirstAux_ne_nil_of (l : List String) (h : l ≠ []) :
    dedupFirstAux [] l ≠ [] := by
  cases l with
  | nil => exact absurd rfl h
  | cons a as =>
      rw [dedupFirstAux_head [] a as (by simp)]
      simp

/-- Helper: the length of the join accumulator never shrinks. -/
theorem intercalate_go_length (s : String) :
    ∀ (as : List String) (acc : String),
      acc.length ≤ (String.intercalate.go acc s as).length := by
  intro as
  induction as with
  | nil =>
      intro acc
      exact Nat.le_refl _
  | cons a as ih =>
      intro acc
      have hstep : String.intercalate.go acc s (a :: as) =
          String.intercalate.go (acc ++ s ++ a) s as := rfl
      rw [hstep]
      calc acc.length ≤ (acc ++ s ++ a).length := by
            rw [String.length_append, String.length_append]
            omega
        _ ≤ _ := ih (acc ++ s ++ a)

/-- Helper: joining a non-empty list of non-empty terms with ` OR ` is a
non-empty string. -/
theorem intercalate_ne_empty (l : List String) (hl : l ≠ [])
    (h : ∀ t ∈ l, t ≠ "") : String.intercalate " OR " l ≠ "" := by
  cases l with
  | nil => exact absurd rfl hl
  | cons a as =>
      have hstep : String.intercalate " OR " (a :: as) =
          String.intercalate.go a " OR " as := rfl
      rw [hstep]
      intro hc
      have hlen := intercalate_go_length " OR " as a
      rw [hc] at hlen
      have ha : a = "" := by
        have hz : a.length = 0 := by simpa using hlen
        cases a with
        | mk d =>
            cases d with
            | nil => rfl
            | cons x xs => simp [String.length] at hz
      exact h a (List.mem_cons_self _ _) ha

/-- Helper: the synthesized expression is non-empty whenever the
extracted identifiers are non-empty strings. -/
theorem build_match_terms_ne_empty_of (prompt : String) (ids : Ids)
    (hids : ∀ s, (ids.node_id = some s ∨ ids.tp_id = some s ∨ ids.link_id = some s) → s ≠ "") :
    build_match_terms prompt ids ≠ "" := by
  unfold build_match_terms match_terms_list
  apply intercalate_ne_empty
  · exact dedupFirstAux_ne_nil_of _ (matchTokensWithFallback_ne_nil prompt ids)
  · intro t ht
    exact matchTokensWithFallback_ne_empty prompt ids hids t
      ((mem_dedupFirstAux t (matchTokensWithFallback prompt ids) []).mp ht).1

/-- Helper: a captured identifier run after a keyword is non-empty. -/
theorem idAfterGap_ne_nil {cs t : List Char} (h : idAfterGap cs = some t) : t ≠ [] := by
  unfold idAfterGap at h
  by_cases hr : ((cs.dropWhile isPySpace).takeWhile inIdClass).isEmpty = true
  · rw [if_pos hr] at h
    exact absurd h (by simp)
  · rw [if_neg hr] at h
    injection h with h
    subst h
    simpa using hr

/-- Helper: any capture of the keyword-alternation matcher is
non-empty. -/
theorem tryAltsAt_ne_nil : ∀ (alts : List (List Char)) (ci : Bool) (cs t : List Char),
    tryAltsAt alts ci cs = some t → t ≠ [] := by
  intro alts
  induction alts with
  | nil =>
      intro ci cs t h
      simp [tryAltsAt] at h
  | cons kw rest ih =>
      intro ci cs t h
      have hstep : tryAltsAt (kw :: rest) ci cs =
          (match (if ci then matchKeywordCI kw cs else matchLit kw cs) with
           | some r =>
              match idAfterGap r with
              | some tok => some tok
              | none => tryAltsAt rest ci cs
           | none => tryAltsAt rest ci cs) := rfl
      rw [hstep] at h
      cases hm : (if ci then matchKeywordCI kw cs else matchLit kw cs) with
      | none =>
          rw [hm] at h
          exact ih ci cs t h
      | some r =>
          rw [hm] at h
          have h' : (match idAfterGap r with
              | some tok => some tok
              | none => tryAltsAt rest ci cs) = some t := h
          cases hg : idAfterGap r with
          | none =>
              rw [hg] at h'
              exact ih ci cs t h'
          | some tok =>
              rw [hg] at h'
              have h'' : some tok = some t := h'
              injection h'' with h''
              subst h''
              exact idAfterGap_ne_nil hg

/-- Helper: any capture of the keyword-identifier scan is non-empty. -/
theorem findKwId_ne_nil : ∀ (cs : List Char) (alts : List (List Char)) (ci : Bool)
    (t : List Char), findKwId alts ci cs = some t → t ≠ [] := by
  intro cs
  induction cs with
  | nil =>
      intro alts ci t h
      simp [findKwId] at h
  | cons c rest ih =>
      intro alts ci t h
      have hstep : findKwId alts ci (c :: rest) =
          (match tryAltsAt alts ci (c :: rest) with
           | some idTok => some idTok
           | none => findKwId alts ci rest) := rfl
      rw [hstep] at h
      cases ha : tryAltsAt alts ci (c :: rest) with
      | some idTok =>
          rw [ha] at h
          injection h with h
          subst h
          exact tryAltsAt_ne_nil alts ci (c :: rest) _ ha
      | none =>
          rw [ha] at h
          exact ih alts ci t h

/-- Helper: both captures of the `NODE:TP` scan are non-empty. -/
theorem findColonPair_ne_nil : ∀ (cs : List Char) (pr : List Char × List Char),
    findColonPair cs = some pr → pr.1 ≠ [] ∧ pr.2 ≠ [] := by
  intro cs
  induction cs with
  | nil =>
      intro pr h
      simp [findColonPair] at h
  | cons c rest ih =>
      intro pr h
      have hstep : findColonPair (c :: rest) =
          (if inIdClass c then
            match (c :: rest).dropWhile inIdClass with
            | [] => findColonPair rest
            | x :: rest2 =>
                if x = ':' then
                  (if (rest2.takeWhile inIdClass).isEmpty then findColonPair rest
                   else some ((c :: rest).takeWhile inIdClass, rest2.takeWhile inIdClass))
                else findColonPair rest
          else findColonPair rest) := rfl
      rw [hstep] at h
      by_cases hc : inIdClass c = true
      · rw [if_pos hc] at h
        cases hd : (c :: rest).dropWhile inIdClass with
        | nil =>
            rw [hd] at h
            exact ih pr h
        | cons x rest2 =>
            rw [hd] at h
            have h' : (if x = ':' then
                (if (rest2.takeWhile inIdClass).isEmpty then findColonPair rest
                 else some ((c :: rest).takeWhile inIdClass, rest2.takeWhile inIdClass))
              else findColonPair rest) = some pr := h
            by_cases hx : x = ':'
            · rw [if_pos hx] at h'
              by_cases hrun : (rest2.takeWhile inIdClass).isEmpty = true
              · rw [if_pos hrun] at h'
                exact ih pr h'
              · rw [if_neg hrun] at h'
                injection h' with h'
                subst h'
                constructor
                · show (c :: rest).takeWhile inIdClass ≠ []
                  rw [List.takeWhile_cons_of_pos hc]
                  simp
                · simpa using hrun
            · rw [if_neg hx] at h'
              exact ih pr h'
      · rw [if_neg hc] at h
        exact ih pr h

/-- Helper: every identifier value extracted by `extract_ids` is a
non-empty string. -/
theorem extract_ids_values (q : String) :
    ∀ s, ((extract_ids q).node_id = some s ∨ (extract_ids q).tp_id = some s ∨
      (extract_ids q).link_id = some s) → s ≠ "" := by
  intro s hs
  have hnode : ∀ t : List Char, extractNodeId q.toList = some t → t ≠ [] := by
    intro t h
    unfold extractNodeId at h
    cases hcp : findColonPair q.toList with
    | some pr =>
        rw [hcp] at h
        injection h with h
        subst h
        exact (findColonPair_ne_nil q.toList pr hcp).1
    | none =>
        rw [hcp] at h
        exact findKwId_ne_nil q.toList _ true t h
  have htp : ∀ t : List Char, extractTpId q.toList = some t → t ≠ [] := by
    intro t h
    unfold extractTpId at h
    cases hcp : findColonPair q.toList with
    | some pr =>
        rw [hcp] at h
        injection h with h
        subst h
        exact (findColonPair_ne_nil q.toList pr hcp).2
    | none =>
        rw [hcp] at h
        exact findKwId_ne_nil q.toList _ false t h
  have hlink : ∀ t : List Char, extractLinkId q.toList = some t → t ≠ [] :=
    fun t h => findKwId_ne_nil q.toList _ true t h
  rcases hs with h | h | h
  · unfold extract_ids at h
    simp only [Option.map_eq_some'] at h
    rcases h with ⟨t, ht, rfl⟩
    exact mk_ne_empty (hnode t ht)
  · unfold extract_ids at h
    simp only [Option.map_eq_some'] at h
    rcases h with ⟨t, ht, rfl⟩
    exact mk_ne_empty (htp t ht)
  · unfold extract_ids at h
    simp only [Option.map_eq_some'] at h
    rcases h with ⟨t, ht, rfl⟩
    exact mk_ne_empty (hlink t ht)

/-- C7: the synthesized full-text match expression is never empty: it is
non-empty for every prompt and extracted-identifier map (identifier
values being non-empty extracted tokens), falls back to the extracted
`node_id`/`tp_id`/`link_id` values when tokenization plus synonym
mapping yields no terms, and to the fixed default `node OR tp OR link`
when no identifier exists either. -/
theorem build_match_terms_never_empty :
    (∀ (prompt : String) (ids : Ids),
      (∀ s, (ids.node_id = some s ∨ ids.tp_id = some s ∨ ids.link_id = some s) → s ≠ "") →
      build_match_terms prompt ids ≠ "") ∧
    (∀ (prompt q : String), build_match_terms prompt (extract_ids q) ≠ "") ∧
    (∀ (prompt : String) (ids : Ids), rawMatchTokens prompt ids = [] →
      fallbackIdTokens ids ≠ [] →
      matchTokensWithFallback prompt ids = fallbackIdTokens ids) ∧
    (∀ (prompt : String) (ids : Ids), rawMatchTokens prompt ids = [] →
      fallbackIdTokens ids = [] →
      build_match_terms prompt ids = "node OR tp OR link") := by
  refine ⟨build_match_terms_ne_empty_of, ?_, ?_, ?_⟩
  · intro prompt q
    exact build_match_terms_ne_empty_of prompt (extract_ids q) (extract_ids_values q)
  · intro prompt ids h1 h2
    cases hf : fallbackIdTokens ids with
    | nil => exact absurd hf h2
    | cons a as =>
        unfold matchTokensWithFallback
        rw [h1, hf]
        rfl
  · intro prompt ids h1 h2
    unfold build_match_terms match_terms_list
    have hmt : matchTokensWithFallback prompt ids = ["node", "tp", "link"] := by
      unfold matchTokensWithFallback
      rw [h1, h2]
      rfl
    rw [hmt]
    decide

/-- Witness for C7: a prompt with no usable token and no identifiers
falls back to the default term set; with identifiers the expression is
non-empty. -/
theorem build_match_terms_never_empty_witness :
    build_match_terms "の" ({} : Ids) = "node OR tp OR link" ∧
    build_match_terms "の" (extract_ids "の") ≠ "" :=
  ⟨build_match_terms_never_empty.2.2.2 "の" {} (by decide) (by decide),
   build_match_terms_never_empty.2.1 "の" "の"⟩

/-- Helper: updating the conflicting rows keeps the per-key row count. -/
theorem countKey_map_update (table : List ((String × String) × String))
    (kind id_ data : String) :
    countKey (table.map (fun r => if r.1 = (kind, id_) then (r.1, data) else r)) kind id_ =
      countKey table kind id_ := by
  unfold countKey
  rw [List.countP_map]
  congr 1
  funext r
  by_cases hr : r.1 = (kind, id_)
  · simp [hr]
  · simp [hr]

/-- Helper: an upsert into a table satisfying the primary-key invariant
leaves exactly one row for the key. -/
theorem upsert_countKey (table : List ((String × String) × String))
    (kind id_ data : String) (hwf : countKey table kind id_ ≤ 1) :
    countKey (upsert table kind id_ data) kind id_ = 1 := by
  unfold upsert
  by_cases ha : table.any (fun r => r.1 = (kind, id_)) = true
  · rw [if_pos ha, countKey_map_update]
    rcases List.any_eq_true.mp ha with ⟨r, hr, hpr⟩
    have hpos : 0 < countKey table kind id_ :=
      List.countP_pos_iff.mpr ⟨r, hr, hpr⟩
    omega
  · rw [if_neg ha]
    unfold countKey
    rw [List.countP_append]
    have hz : countKey table kind id_ = 0 := by
      unfold countKey
      rw [List.countP_eq_zero]
      intro r hr hcon
      exact ha (List.any_eq_true.mpr ⟨r, hr, hcon⟩)
    unfold countKey at hz
    rw [hz]
    simp

/-- Helper: searching the updated rows finds the new data. -/
theorem find_map_updated (kind id_ data : String) :
    ∀ (t : List ((String × String) × String)),
      t.any (fun r => r.1 = (kind, id_)) = true →
      (t.map (fun r => if r.1 = (kind, id_) then (r.1, data) else r)).find?
        (fun r => r.1 = (kind, id_)) = some ((kind, id_), data) := by
  intro t
  induction t with
  | nil =>
      intro h
      simp at h
  | cons r rest ih =>
      intro h
      simp only [List.map_cons]
      by_cases hr : r.1 = (kind, id_)
      · rw [List.find?_cons_of_pos]
        · rw [if_pos hr, hr]
        · simp [hr]
      · rw [List.find?_cons_of_neg]
        · apply ih
          rcases List.any_eq_true.mp h with ⟨s, hs, hps⟩
          rcases List.mem_cons.mp hs with rfl | hs'
          · exact absurd (by simpa using hps) hr
          · exact List.any_eq_true.mpr ⟨s, hs', hps⟩
        · simp [hr]
/-- Helper: rows that all miss the key do not affect the lookup. -/
theorem find_append_of_none (kind id_ : String)
    (l : List ((String × String) × String)) :
    ∀ (t : List ((String × String) × String)), (∀ r ∈ t, ¬(r.1 = (kind, id_))) →
      (t ++ l).find? (fun r => r.1 = (kind, id_)) = l.find? (fun r => r.1 = (kind, id_)) := by
  intro t
  induction t with
  | nil =>
      intro _
      rfl
  | cons r rest ih =>
      intro hall
      rw [List.cons_append, List.find?_cons_of_neg]
      · exact ih fun x hx => hall x (List.mem_cons_of_mem _ hx)
      · simp [hall r (List.mem_cons_self _ _)]

/-- Helper: a point lookup right after an upsert returns the upserted
payload. -/
theorem upsert_get (table : List ((String × String) × String))
    (kind id_ data : String) :
    get (upsert table kind id_ data) kind id_ = some data := by
  unfold upsert get
  by_cases ha : table.any (fun r => r.1 = (kind, id_)) = true
  · rw [if_pos ha, find_map_updated kind id_ data table ha]
    rfl
  · rw [if_neg ha, find_append_of_none kind id_ _ table ?_]
    · rw [List.find?_cons_of_pos]
      · rfl
      · simp
    · intro r hr hcon
      exact ha (List.any_eq_true.mpr ⟨r, hr, by simp [hcon]⟩)

/-- C8: upserting twice under one identity key, over any table
satisfying the primary-key invariant, leaves exactly one row for that
identity holding the second payload, and the point lookup returns that
payload. -/
theorem upsert_idempotent_latest (table : List ((String × String) × String))
    (kind id_ d1 d2 : String) (hwf : countKey table kind id_ ≤ 1) :
    countKey (upsert (upsert table kind id_ d1) kind id_ d2) kind id_ = 1 ∧
    get (upsert (upsert table kind id_ d1) kind id_ d2) kind id_ = some d2 := by
  have h1 : countKey (upsert table kind id_ d1) kind id_ = 1 :=
    upsert_countKey table kind id_ d1 hwf
  exact ⟨upsert_countKey _ kind id_ d2 (by omega), upsert_get _ kind id_ d2⟩

/-- Witness for C8 on an initially empty table. -/
theorem upsert_idempotent_latest_witness :
    countKey (upsert (upsert [] "tp" "L3SW1:ae1" "mtu=1500") "tp" "L3SW1:ae1" "mtu=9000")
      "tp" "L3SW1:ae1" = 1 ∧
    get (upsert (upsert [] "tp" "L3SW1:ae1" "mtu=1500") "tp" "L3SW1:ae1" "mtu=9000")
      "tp" "L3SW1:ae1" = some "mtu=9000" :=
  upsert_idempotent_latest [] "tp" "L3SW1:ae1" "mtu=1500" "mtu=9000" (by decide)

/-- C9: every edge produced by the topology graph loader carries a
non-empty source node id and a non-empty destination node id — link
documents with an unresolvable endpoint are skipped and appear in no
edge list. -/
theorem load_edges_endpoints_truthy (tpv : String → String → Option Int)
    (docs : List (Option LinkObj)) :
    ∀ e ∈ load_edges tpv docs, truthyS e.src_node = true ∧ truthyS e.dst_node = true := by
  intro e he
  unfold load_edges at he
  rcases List.mem_filterMap.mp he with ⟨doc, _, hload⟩
  cases doc with
  | none => simp [load_edge_of_doc] at hload
  | some obj =>
      have hload' : (if truthyS (row_to_edge obj).src_node && truthyS (row_to_edge obj).dst_node
          then some (enrich_resolve tpv (row_to_edge obj)) else none) = some e := hload
      by_cases hg : (truthyS (row_to_edge obj).src_node
          && truthyS (row_to_edge obj).dst_node) = true
      · rw [if_pos hg] at hload'
        injection hload' with hload'
        subst hload'
        have hsrc : (enrich_resolve tpv (row_to_edge obj)).src_node =
            (row_to_edge obj).src_node := rfl
        have hdst : (enrich_resolve tpv (row_to_edge obj)).dst_node =
            (row_to_edge obj).dst_node := rfl
        rw [hsrc, hdst]
        simpa [Bool.and_eq_true] using hg
      · rw [if_neg hg] at hload'
        exact absurd hload' (by simp)

/-- Witness for C9 at a concrete stored link document. -/
theorem load_edges_endpoints_truthy_witness :
    truthyS exEdgeShared.src_node = true ∧ truthyS exEdgeShared.dst_node = true :=
  load_edges_endpoints_truthy tpvShared [some (exLinkAB "link-1")] exEdgeShared (by decide)

/-- C10: a search query that is empty, or becomes empty after stripping
whitespace and leading `/`, `#`, `>` symbols, runs no full-text match
and returns the first `limit` objects of the whole store, with `count`
the number of items returned. -/
theorem search_empty_query_lists_store (store : List (String × String))
    (fts : String → List (String × String)) (q : String) (limit : Nat)
    (h : searchSanitize q = []) :
    search store fts q limit =
      { items := store.take limit, count := (store.take limit).length,
        usedMatch := false } := by
  unfold search
  rw [h]
  rfl

/-- Witness for C10 at a symbols-and-whitespace-only query. -/
theorem search_empty_query_lists_store_witness :
    search [("node", "r1"), ("tp", "ae1")] (fun _ => []) "  /#> " 1 =
      { items := [("node", "r1"), ("tp", "ae1")].take 1,
        count := ([("node", "r1"), ("tp", "ae1")].take 1).length,
        usedMatch := false } :=
  search_empty_query_lists_store _ _ _ _ (by decide)

end IetfNetworkSchema
